import Mathlib

/-!
Verification of the bladerfgpsjammer scripts (transmit_gps_l5.py,
transmit_gps_l1_l2_dual.py, transmit_gps_l2_l5_dual.py) against their
natural-language specification.  The Python functions are shallowly embedded
as Lean functions over `Int` lists; hardware calls are modelled by explicit
outcome records, and the random draws of `np.random.randint` are passed in as
explicit parameters constrained to the documented ranges.
-/

/-- Two's-complement wrap to a signed 16-bit integer, the effect of a
`.astype(np.int16)` cast on an integer value. -/
def toInt16 (x : Int) : Int := (x + 32768) % 65536 - 32768

/-- Model of `(x * 0.95).astype(np.int16)` applied to one raw sample `x`.
The float64 product `x * np.float64(0.95)` followed by C truncation toward
zero agrees with exact-rational truncation `(x * 95).tdiv 100` for every
`|x| ≤ 2047`: the nearest double to 0.95 is below it by about 4.44e-17, so the
rounded product differs from the exact rational `19x/20` by well under half a
unit in the last place, which is far smaller than the distance from `19x/20`
to the nearest integer it could cross (`1/20` when `20 ∤ x`; when `20 ∣ x` the
product rounds back up to the exact integer because the error is below half an
ulp).  `Int.tdiv` is truncation toward zero, matching the C cast. -/
def scale95 (x : Int) : Int := toInt16 ((x * 95).tdiv 100)

/-- Model of the strided stores `samples[0::2] = i; samples[1::2] = q` into a
fresh buffer of length `2 * num_samples` (transmit_gps_l5.py lines 41-45 and
the identical lines of both dual scripts): element `2*s` comes from `i[s]` and
element `2*s+1` from `q[s]`.  When the two inputs have equal length this is
exactly the numpy result; on unequal lengths numpy raises instead, and the
callers always pass equal lengths. -/
def interleave2 : List Int → List Int → List Int
  | x :: xs, y :: ys => x :: y :: interleave2 xs ys
  | _, _ => []

/-- `generate_white_noise(num_samples)` (present identically in all three
scripts), with the two `np.random.randint(-2047, 2048, num_samples)` draw
vectors passed in explicitly as `iRaw` and `qRaw`. -/
def generate_white_noise (iRaw qRaw : List Int) : List Int :=
  interleave2 (iRaw.map scale95) (qRaw.map scale95)

theorem scale95_bound (x : Int) (h1 : -2047 ≤ x) (h2 : x ≤ 2047) :
    -1944 ≤ scale95 x ∧ scale95 x ≤ 1944 := by
  have h : ((x * 95).tdiv 100).natAbs = (x * 95).natAbs / 100 :=
    Int.natAbs_tdiv (x * 95) 100
  have hb : -1944 ≤ (x * 95).tdiv 100 ∧ (x * 95).tdiv 100 ≤ 1944 := by omega
  unfold scale95 toInt16
  omega

theorem interleave2_mem : ∀ (xs ys : List Int) (v : Int),
    v ∈ interleave2 xs ys → v ∈ xs ∨ v ∈ ys
  | [], _, v, h => by simp [interleave2] at h
  | _ :: _, [], v, h => by simp [interleave2] at h
  | x :: xs, y :: ys, v, h => by
    simp only [interleave2, List.mem_cons] at h
    rcases h with h | h | h
    · exact Or.inl (by simp [h])
    · exact Or.inr (by simp [h])
    · rcases interleave2_mem xs ys v h with h' | h'
      · exact Or.inl (List.mem_cons_of_mem _ h')
      · exact Or.inr (List.mem_cons_of_mem _ h')

theorem interleave2_length : ∀ (xs ys : List Int), xs.length = ys.length →
    (interleave2 xs ys).length = 2 * xs.length
  | [], [], _ => rfl
  | [], _ :: _, h => by simp at h
  | _ :: _, [], h => by simp at h
  | x :: xs, y :: ys, h => by
    have ih := interleave2_length xs ys (by simpa using h)
    simp [interleave2, ih]
    ring

theorem interleave2_getD_even : ∀ (xs ys : List Int), xs.length = ys.length →
    ∀ s : Nat, (interleave2 xs ys).getD (2 * s) 0 = xs.getD s 0
  | [], [], _, s => by simp [interleave2]
  | [], _ :: _, h, s => by simp at h
  | _ :: _, [], h, s => by simp at h
  | x :: xs, y :: ys, h, 0 => rfl
  | x :: xs, y :: ys, h, s + 1 => by
    have ih := interleave2_getD_even xs ys (by simpa using h) s
    have e : 2 * (s + 1) = 2 * s + 1 + 1 := by ring
    rw [e]
    simpa [interleave2] using ih

theorem interleave2_getD_odd : ∀ (xs ys : List Int), xs.length = ys.length →
    ∀ s : Nat, (interleave2 xs ys).getD (2 * s + 1) 0 = ys.getD s 0
  | [], [], _, s => by simp [interleave2]
  | [], _ :: _, h, s => by simp at h
  | _ :: _, [], h, s => by simp at h
  | x :: xs, y :: ys, h, 0 => rfl
  | x :: xs, y :: ys, h, s + 1 => by
    have ih := interleave2_getD_odd xs ys (by simpa using h) s
    have e : 2 * (s + 1) + 1 = 2 * s + 1 + 1 + 1 := by ring
    rw [e]
    simpa [interleave2] using ih

theorem getD_map_scale95 : ∀ (l : List Int) (s : Nat),
    (l.map scale95).getD s 0 = scale95 (l.getD s 0)
  | [], s => by
    have : scale95 0 = 0 := by decide
    simp [this]
  | x :: l, 0 => rfl
  | x :: l, s + 1 => by simpa using getD_map_scale95 l s

/-- C1: for every numSamples n > 0, every element of the buffer returned by
`generate_white_noise` lies in [-1944, 1944]: each raw I and Q draw lies in
[-2047, 2047], is multiplied by 0.95 and truncated toward zero to int16, and
`floor(2047 * 0.95) = 1944`. -/
theorem generate_white_noise_bound (n : Nat) (iRaw qRaw : List Int) (hn : 0 < n)
    (hil : iRaw.length = n) (hql : qRaw.length = n)
    (hi : ∀ x ∈ iRaw, -2047 ≤ x ∧ x ≤ 2047)
    (hq : ∀ x ∈ qRaw, -2047 ≤ x ∧ x ≤ 2047) :
    ∀ v ∈ generate_white_noise iRaw qRaw, -1944 ≤ v ∧ v ≤ 1944 := by
  intro v hv
  rcases interleave2_mem _ _ v hv with h | h
  · rcases List.mem_map.mp h with ⟨x, hx, rfl⟩
    exact scale95_bound x (hi x hx).1 (hi x hx).2
  · rcases List.mem_map.mp h with ⟨x, hx, rfl⟩
    exact scale95_bound x (hq x hx).1 (hq x hx).2

theorem generate_white_noise_bound_witness :
    -1944 ≤ (generate_white_noise [2047, -2047] [0, 100]).getD 0 0 ∧
      (generate_white_noise [2047, -2047] [0, 100]).getD 0 0 ≤ 1944 :=
  generate_white_noise_bound 2 [2047, -2047] [0, 100] (by decide) (by decide)
    (by decide) (by decide) (by decide)
    ((generate_white_noise [2047, -2047] [0, 100]).getD 0 0) (by decide)

/-- C2: for every numSamples n, `generate_white_noise` returns a buffer of
length exactly 2n in which element 2s is the (scaled) I value of slot s and
element 2s+1 the (scaled) Q value of slot s. -/
theorem generate_white_noise_layout (n : Nat) (iRaw qRaw : List Int)
    (hil : iRaw.length = n) (hql : qRaw.length = n) :
    (generate_white_noise iRaw qRaw).length = 2 * n ∧
    ∀ s : Nat, (generate_white_noise iRaw qRaw).getD (2 * s) 0 = scale95 (iRaw.getD s 0) ∧
      (generate_white_noise iRaw qRaw).getD (2 * s + 1) 0 = scale95 (qRaw.getD s 0) := by
  have hlen : (iRaw.map scale95).length = (qRaw.map scale95).length := by
    simp [hil, hql]
  refine ⟨?_, fun s => ⟨?_, ?_⟩⟩
  · have := interleave2_length (iRaw.map scale95) (qRaw.map scale95) hlen
    simpa [hil] using this
  · rw [generate_white_noise, interleave2_getD_even _ _ hlen s, getD_map_scale95]
  · rw [generate_white_noise, interleave2_getD_odd _ _ hlen s, getD_map_scale95]

theorem generate_white_noise_layout_witness :
    (generate_white_noise [5, 6] [7, 8]).getD 2 0 = scale95 6 ∧
      (generate_white_noise [5, 6] [7, 8]).getD 3 0 = scale95 8 := by
  have h := generate_white_noise_layout 2 [5, 6] [7, 8] (by decide) (by decide)
  exact ⟨(h.2 1).1, (h.2 1).2⟩

/-- Model of the dual-channel strided stores (lines 156-160 of both dual
scripts): a fresh buffer of length `dual_buffer_size * 2 = 4 * buffer_size`
receives `dual_samples[0::4] = ch0[0::2]`, `[1::4] = ch0[1::2]`,
`[2::4] = ch1[0::2]`, `[3::4] = ch1[1::2]`, i.e. slot-major, channel-minor,
I-before-Q.  The recursion consumes one IQ pair from each channel buffer per
output slot, which is exactly the numpy result when both inputs have the even
equal length `2 * buffer_size` that the callers always pass. -/
def interleaveDual : List Int → List Int → List Int
  | a :: b :: xs, c :: d :: ys => a :: b :: c :: d :: interleaveDual xs ys
  | _, _ => []

/-- Elements of a list at stride 2 starting from the head: numpy `l[0::2]`
(and `l[1::2]` is `every2 (l.drop 1)`). -/
def every2 : List Int → List Int
  | a :: _ :: rest => a :: every2 rest
  | [a] => [a]
  | [] => []

/-- Elements of a list at stride 4 starting from the head: numpy `l[0::4]`
(and `l[r::4]` is `every4 (l.drop r)`). -/
def every4 : List Int → List Int
  | a :: _ :: _ :: _ :: rest => a :: every4 rest
  | [a] => [a]
  | [a, _] => [a]
  | [a, _, _] => [a]
  | [] => []

theorem every2_cons (b : Int) (rest : List Int) :
    every2 (b :: rest) = b :: every2 (rest.drop 1) := by
  rcases rest with _ | ⟨r, rest'⟩ <;> rfl

theorem every4_cons (b : Int) (rest : List Int) :
    every4 (b :: rest) = b :: every4 (rest.drop 3) := by
  rcases rest with _ | ⟨r1, _ | ⟨r2, _ | ⟨r3, rest'⟩⟩⟩ <;> rfl

theorem exists_two_cons (xs : List Int) (n : Nat) (h : xs.length = 2 * (n + 1)) :
    ∃ a b xs', xs = a :: b :: xs' ∧ xs'.length = 2 * n := by
  rcases xs with _ | ⟨a, _ | ⟨b, xs'⟩⟩
  · simp at h
  · simp at h
    omega
  · refine ⟨a, b, xs', rfl, ?_⟩
    simp at h
    omega

theorem interleaveDual_length : ∀ (n : Nat) (xs ys : List Int),
    xs.length = 2 * n → ys.length = 2 * n →
    (interleaveDual xs ys).length = 4 * n := by
  intro n
  induction n with
  | zero =>
    intro xs ys hx hy
    have hx0 : xs = [] := List.length_eq_zero.mp (by omega)
    have hy0 : ys = [] := List.length_eq_zero.mp (by omega)
    subst hx0 hy0
    rfl
  | succ n ih =>
    intro xs ys hx hy
    obtain ⟨a, b, xs', rfl, hx'⟩ := exists_two_cons xs n hx
    obtain ⟨c, d, ys', rfl, hy'⟩ := exists_two_cons ys n hy
    have := ih xs' ys' hx' hy'
    simp only [interleaveDual, List.length_cons]
    omega

theorem interleaveDual_getD : ∀ (n : Nat) (xs ys : List Int),
    xs.length = 2 * n → ys.length = 2 * n → ∀ s : Nat,
    (interleaveDual xs ys).getD (4 * s) 0 = xs.getD (2 * s) 0 ∧
    (interleaveDual xs ys).getD (4 * s + 1) 0 = xs.getD (2 * s + 1) 0 ∧
    (interleaveDual xs ys).getD (4 * s + 2) 0 = ys.getD (2 * s) 0 ∧
    (interleaveDual xs ys).getD (4 * s + 3) 0 = ys.getD (2 * s + 1) 0 := by
  intro n
  induction n with
  | zero =>
    intro xs ys hx hy s
    have hx0 : xs = [] := List.length_eq_zero.mp (by omega)
    have hy0 : ys = [] := List.length_eq_zero.mp (by omega)
    subst hx0 hy0
    simp [interleaveDual]
  | succ n ih =>
    intro xs ys hx hy s
    obtain ⟨a, b, xs', rfl, hx'⟩ := exists_two_cons xs n hx
    obtain ⟨c, d, ys', rfl, hy'⟩ := exists_two_cons ys n hy
    rcases s with _ | s
    · simp [interleaveDual]
    · have ihs := ih xs' ys' hx' hy' s
      have e0 : 4 * (s + 1) = 4 * s + 1 + 1 + 1 + 1 := by ring
      have e1 : 2 * (s + 1) = 2 * s + 1 + 1 := by ring
      rw [e0, e1]
      simpa [interleaveDual] using ihs

/-- C3: for per-channel buffers of length 2n each, the dual-channel
interleaving step yields a transfer buffer of length 4n whose elements at
offsets 4s, 4s+1, 4s+2, 4s+3 are ch0.I[s], ch0.Q[s], ch1.I[s], ch1.Q[s]
(the I value of slot s sits at even offset 2s of the per-channel buffer). -/
theorem dual_interleave_layout (n : Nat) (ch0 ch1 : List Int)
    (h0 : ch0.length = 2 * n) (h1 : ch1.length = 2 * n) :
    (interleaveDual ch0 ch1).length = 4 * n ∧
    ∀ s : Nat, s < n →
      (interleaveDual ch0 ch1).getD (4 * s) 0 = ch0.getD (2 * s) 0 ∧
      (interleaveDual ch0 ch1).getD (4 * s + 1) 0 = ch0.getD (2 * s + 1) 0 ∧
      (interleaveDual ch0 ch1).getD (4 * s + 2) 0 = ch1.getD (2 * s) 0 ∧
      (interleaveDual ch0 ch1).getD (4 * s + 3) 0 = ch1.getD (2 * s + 1) 0 :=
  ⟨interleaveDual_length n ch0 ch1 h0 h1,
   fun s _ => interleaveDual_getD n ch0 ch1 h0 h1 s⟩

theorem dual_interleave_layout_witness :
    (interleaveDual [1, 2, 3, 4] [5, 6, 7, 8]).length = 4 * 2 ∧
      (interleaveDual [1, 2, 3, 4] [5, 6, 7, 8]).getD (4 * 1) 0 =
        ([1, 2, 3, 4] : List Int).getD (2 * 1) 0 := by
  have h := dual_interleave_layout 2 [1, 2, 3, 4] [5, 6, 7, 8] (by decide) (by decide)
  exact ⟨h.1, (h.2 1 (by decide)).1⟩

theorem every4_interleaveDual : ∀ (n : Nat) (xs ys : List Int),
    xs.length = 2 * n → ys.length = 2 * n →
    every4 (interleaveDual xs ys) = every2 xs ∧
    every4 ((interleaveDual xs ys).drop 1) = every2 (xs.drop 1) ∧
    every4 ((interleaveDual xs ys).drop 2) = every2 ys ∧
    every4 ((interleaveDual xs ys).drop 3) = every2 (ys.drop 1) := by
  intro n
  induction n with
  | zero =>
    intro xs ys hx hy
    have hx0 : xs = [] := List.length_eq_zero.mp (by omega)
    have hy0 : ys = [] := List.length_eq_zero.mp (by omega)
    subst hx0 hy0
    exact ⟨rfl, rfl, rfl, rfl⟩
  | succ n ih =>
    intro xs ys hx hy
    obtain ⟨a, b, xs', rfl, hx'⟩ := exists_two_cons xs n hx
    obtain ⟨c, d, ys', rfl, hy'⟩ := exists_two_cons ys n hy
    obtain ⟨ih0, ih1, ih2, ih3⟩ := ih xs' ys' hx' hy'
    refine ⟨?_, ?_, ?_, ?_⟩
    · show every4 (a :: b :: c :: d :: interleaveDual xs' ys') = every2 (a :: b :: xs')
      rw [every4_cons, every2_cons]
      simpa using ih0
    · show every4 (b :: c :: d :: interleaveDual xs' ys') = every2 (b :: xs')
      rw [every4_cons, every2_cons]
      simpa using ih1
    · show every4 (c :: d :: interleaveDual xs' ys') = every2 (c :: d :: ys')
      rw [every4_cons, every2_cons]
      simpa using ih2
    · show every4 (d :: interleaveDual xs' ys') = every2 (d :: ys')
      rw [every4_cons, every2_cons]
      simpa using ih3

theorem interleave2_every2 : ∀ (n : Nat) (xs : List Int), xs.length = 2 * n →
    interleave2 (every2 xs) (every2 (xs.drop 1)) = xs := by
  intro n
  induction n with
  | zero =>
    intro xs hx
    have hx0 : xs = [] := List.length_eq_zero.mp (by omega)
    subst hx0
    rfl
  | succ n ih =>
    intro xs hx
    obtain ⟨a, b, xs', rfl, hx'⟩ := exists_two_cons xs n hx
    have := ih xs' hx'
    show interleave2 (every2 (a :: b :: xs')) (every2 (b :: xs')) = a :: b :: xs'
    rw [show every2 (a :: b :: xs') = a :: every2 xs' from rfl, every2_cons]
    simpa [interleave2] using this

/-- C10: dual-channel interleaving is lossless with an exact inverse: the four
stride-4 subsequences of the transfer buffer at offsets 0..3 are exactly the
even-indexed elements of ch0, the odd-indexed elements of ch0, the
even-indexed elements of ch1 and the odd-indexed elements of ch1, and
re-interleaving the even/odd subsequences reconstructs each original buffer,
so no sample is dropped or duplicated. -/
theorem dual_interleave_lossless (n : Nat) (ch0 ch1 : List Int)
    (h0 : ch0.length = 2 * n) (h1 : ch1.length = 2 * n) :
    every4 (interleaveDual ch0 ch1) = every2 ch0 ∧
    every4 ((interleaveDual ch0 ch1).drop 1) = every2 (ch0.drop 1) ∧
    every4 ((interleaveDual ch0 ch1).drop 2) = every2 ch1 ∧
    every4 ((interleaveDual ch0 ch1).drop 3) = every2 (ch1.drop 1) ∧
    interleave2 (every2 ch0) (every2 (ch0.drop 1)) = ch0 ∧
    interleave2 (every2 ch1) (every2 (ch1.drop 1)) = ch1 := by
  obtain ⟨e0, e1, e2, e3⟩ := every4_interleaveDual n ch0 ch1 h0 h1
  exact ⟨e0, e1, e2, e3, interleave2_every2 n ch0 h0, interleave2_every2 n ch1 h1⟩

theorem dual_interleave_lossless_witness :
    every4 (interleaveDual [1, 2, 3, 4] [5, 6, 7, 8]) = every2 [1, 2, 3, 4] ∧
      interleave2 (every2 [1, 2, 3, 4]) (every2 (([1, 2, 3, 4] : List Int).drop 1)) =
        [1, 2, 3, 4] := by
  have h := dual_interleave_lossless 2 [1, 2, 3, 4] [5, 6, 7, 8] (by decide) (by decide)
  exact ⟨h.1, h.2.2.2.2.1⟩

/-- Lowercasing of a character sequence, the effect of Python `str.lower()`
on the ASCII stage names the driver reports. -/
def lowerChars (l : List Char) : List Char := l.map Char.toLower

/-- Whether `needle` occurs at the head of `hay`. -/
def startsWithChars : List Char → List Char → Bool
  | [], _ => true
  | _ :: _, [] => false
  | a :: as, b :: bs => a == b && startsWithChars as bs

/-- Whether `needle` occurs contiguously anywhere in `hay`: Python
`needle in hay` on strings. -/
def containsChars (needle : List Char) : List Char → Bool
  | [] => startsWithChars needle []
  | b :: rest => startsWithChars needle (b :: rest) || containsChars needle rest

/-- Python `'dsa' in stage.lower()` (the attenuator-marker test of the
per-stage gain loop in all three scripts). -/
def stageHasDsa (stage : String) : Bool :=
  containsChars ['d', 's', 'a'] (lowerChars stage.toList)

/-- Value given to one gain stage by the loop body: 0 for attenuator-named
stages (minimum attenuation = maximum power), 60 otherwise. -/
def stageGainValue (stage : String) : Int := if stageHasDsa stage then 0 else 60

/-- The per-stage gain policy applied to the whole enumerated stage list
(`for stage in gain_stages: ...`). -/
def gainStagePolicy (stages : List String) : List (String × Int) :=
  stages.map fun s => (s, stageGainValue s)

/-- C4: the per-stage gain policy keeps every stage name, sets every stage
whose lowercased name contains the marker "dsa" to 0 and every other stage to
60, and on the input ["txvga1", "dsa1", "dsa2"] yields txvga1 -> 60,
dsa1 -> 0, dsa2 -> 0. -/
theorem gain_stage_policy_spec :
    (∀ stages : List String, (gainStagePolicy stages).map Prod.fst = stages) ∧
    (∀ s : String, stageGainValue s = if stageHasDsa s then 0 else 60) ∧
    gainStagePolicy ["txvga1", "dsa1", "dsa2"] =
      [("txvga1", 60), ("dsa1", 0), ("dsa2", 0)] := by
  refine ⟨?_, fun _ => rfl, by decide⟩
  intro stages
  induction stages with
  | nil => rfl
  | cons s rest ih => simp [gainStagePolicy] at ih ⊢; exact ih

/-- Outcomes of the individual hardware calls made while configuring one
channel: `freqOk` covers the set_frequency/get_frequency step, `rateOk` the
sample-rate step, `bwOk` the bandwidth step, `gainOk` the aggregate
set_gain/get_gain step, `stageOk s` whether `set_gain_stage` on stage `s`
succeeds, and `biasOk` whether `set_bias_tee` succeeds. -/
structure DevOutcome where
  freqOk : Bool
  rateOk : Bool
  bwOk : Bool
  gainOk : Bool
  stageOk : String → Bool
  biasOk : Bool

inductive CfgError | freqErr | rateErr | bwErr | gainErr
deriving DecidableEq

/-- `configure_channel` of the dual scripts (lines 49-93; the inline body of
`main` in transmit_gps_l5.py is the same sequence): frequency, sample rate,
bandwidth and aggregate gain are applied bare, so a failure in any of them
propagates as the corresponding error; each per-stage `set_gain_stage` sits in
its own `try/except: pass`, so a failing stage is skipped; the bias-tee enable
sits in its own `try/except`, so its failure is recorded but never raised.
On success the returned value lists the stage settings actually performed and
whether the bias tee got enabled. -/
def configure_channel (d : DevOutcome) (stages : List String) :
    Except CfgError (List (String × Int) × Bool) :=
  if !d.freqOk then .error .freqErr
  else if !d.rateOk then .error .rateErr
  else if !d.bwOk then .error .bwErr
  else if !d.gainOk then .error .gainErr
  else .ok
    (stages.filterMap fun s =>
      if d.stageOk s then some (s, stageGainValue s) else none,
    d.biasOk)

/-- Whether configuration ran to completion (no exception escaped). -/
def cfgCompletes (r : Except CfgError (List (String × Int) × Bool)) : Bool :=
  match r with
  | .ok _ => true
  | .error _ => false

/-- C5: channel configuration completes exactly when the frequency,
sample-rate, bandwidth and aggregate-gain applications succeed; failures of
individual gain-stage sets or of the bias-tee enable are swallowed and can
never change whether configuration completes. -/
theorem configure_channel_error_policy (d : DevOutcome) (stages : List String) :
    cfgCompletes (configure_channel d stages) =
      (d.freqOk && d.rateOk && d.bwOk && d.gainOk) ∧
    (∀ sOk sOk' : String → Bool, ∀ bOk bOk' : Bool,
      cfgCompletes (configure_channel ⟨d.freqOk, d.rateOk, d.bwOk, d.gainOk, sOk, bOk⟩ stages) =
      cfgCompletes (configure_channel ⟨d.freqOk, d.rateOk, d.bwOk, d.gainOk, sOk', bOk'⟩ stages)) := by
  obtain ⟨f, r, b, g, s, bi⟩ := d
  cases f <;> cases r <;> cases b <;> cases g <;>
    simp [configure_channel, cfgCompletes]

/-- Teardown actions attempted by the `finally` clause. -/
inductive TAct | disable (idx : Nat) | closeDev
deriving DecidableEq

/-- Outcomes of the teardown hardware calls: disabling TX channel 0,
disabling TX channel 1, and closing the device. -/
structure TeardownOutcome where
  disable0Ok : Bool
  disable1Ok : Bool
  closeOk : Bool

/-- Body of the single `try` inside the `finally` clause of both dual scripts
(lines 174-185): `enable_module(CHANNEL_TX(0), False)`,
`enable_module(CHANNEL_TX(1), False)`, `close()`, executed in order inside ONE
try block, so the first failing call raises and the remaining calls of the
block are not reached.  Returns the list of calls actually attempted and
whether an exception escaped the block. -/
def teardownDualBody (t : TeardownOutcome) : List TAct × Bool :=
  if !t.disable0Ok then ([TAct.disable 0], true)
  else if !t.disable1Ok then ([TAct.disable 0, TAct.disable 1], true)
  else ([TAct.disable 0, TAct.disable 1, TAct.closeDev], !t.closeOk)

/-- The calls the shutdown path attempts; the surrounding `except: pass`
swallows whatever the body raised. -/
def shutdown_dual (t : TeardownOutcome) : List TAct := (teardownDualBody t).1

/-- Result of the whole `finally` clause: the bare `except: pass` means no
exception ever escapes shutdown. -/
def shutdownDualResult (t : TeardownOutcome) : Except Unit (List TAct) :=
  .ok (shutdown_dual t)

/-- C6 counterexample: when disabling channel 0 fails, the code does NOT go on
to attempt disabling channel 1 or closing the device — the single try block
aborts — so the teardown steps are not independently best-effort as the claim
states (only the "shutdown never raises" half is true). -/
theorem shutdown_steps_not_independent :
    TAct.disable 1 ∉ shutdown_dual ⟨false, true, true⟩ ∧
    TAct.closeDev ∉ shutdown_dual ⟨false, true, true⟩ ∧
    TAct.disable 0 ∈ shutdown_dual ⟨false, true, true⟩ ∧
    (teardownDualBody ⟨false, true, true⟩).2 = true := by decide

/-- C6 amended: shutdown itself never raises for any teardown outcome (the
bare `except: pass` swallows every failure), the disable of channel 0 is
always attempted, but each later step is attempted only if all earlier steps
of the block succeeded: a failed disable skips the other disable and the
close. -/
theorem shutdown_best_effort (t : TeardownOutcome) :
    shutdownDualResult t = .ok (shutdown_dual t) ∧
    TAct.disable 0 ∈ shutdown_dual t ∧
    (TAct.disable 1 ∈ shutdown_dual t ↔ t.disable0Ok = true) ∧
    (TAct.closeDev ∈ shutdown_dual t ↔ (t.disable0Ok = true ∧ t.disable1Ok = true)) := by
  obtain ⟨d0, d1, c⟩ := t
  cases d0 <;> cases d1 <;> cases c <;>
    refine ⟨rfl, ?_, ?_, ?_⟩ <;> decide

/-- How the `while running:` transmit loop exits.  `cancelled txDone` means
the poll of the flag found it cleared after `txDone` successful transmits;
`txError k` means the transmit call of iteration `k` raised (k transmit calls
were made, the k-th being the failing one). -/
inductive LoopExit
  | cancelled (txDone : Nat)
  | txError (k : Nat)
  | outOfFuel
deriving DecidableEq

/-- The `while running: dev.sync_tx(...)` loop of all three scripts,
iterations numbered from 1.  `run k` is the value of the `running` flag
observed by the poll at the top of iteration `k` (the flag is written only by
the asynchronous SIGINT handler and read exactly once per iteration);
`txOk k` is whether the `sync_tx` call of iteration `k` returns rather than
raising.  `fuel` bounds the number of iterations modelled. -/
def txLoop (run txOk : Nat → Bool) : Nat → Nat → LoopExit
  | 0, _ => .outOfFuel
  | fuel + 1, k =>
    if run k then
      if txOk k then txLoop run txOk fuel (k + 1) else .txError k
    else .cancelled (k - 1)

/-- Number of transmit calls the loop made before exiting. -/
def txLoopCount : LoopExit → Nat
  | .cancelled n => n
  | .txError k => k
  | .outOfFuel => 0

/-- Whether the modelling fuel ran out before the loop exited. -/
def txLoopFuelOut : LoopExit → Bool
  | .outOfFuel => true
  | _ => false

theorem txLoop_stop_bound (run txOk : Nat → Bool) (m : Nat)
    (hm : ∀ j, m < j → run j = false) :
    ∀ fuel k, 1 ≤ k → k ≤ m + 1 → m + 2 ≤ k + fuel →
      txLoopFuelOut (txLoop run txOk fuel k) = false ∧
      txLoopCount (txLoop run txOk fuel k) ≤ m := by
  intro fuel
  induction fuel with
  | zero =>
    intro k hk1 hk2 hk3
    omega
  | succ fuel ih =>
    intro k hk1 hk2 hk3
    by_cases hrun : run k = true
    · have hkm : k ≤ m := by
        by_contra hgt
        have := hm k (by omega)
        rw [this] at hrun
        exact Bool.false_ne_true hrun
      by_cases htx : txOk k = true
      · have step : txLoop run txOk (fuel + 1) k = txLoop run txOk fuel (k + 1) := by
          simp [txLoop, hrun, htx]
        rw [step]
        exact ih (k + 1) (by omega) (by omega) (by omega)
      · have step : txLoop run txOk (fuel + 1) k = .txError k := by
          simp [txLoop, hrun, htx]
        rw [step]
        exact ⟨rfl, by simpa [txLoopCount] using hkm⟩
    · have step : txLoop run txOk (fuel + 1) k = .cancelled (k - 1) := by
        simp [txLoop, hrun]
      rw [step]
      exact ⟨rfl, by simp [txLoopCount]; omega⟩

/-- C8: the cancellation flag is polled exactly once per loop iteration and
never interrupts an in-flight transmit, so if the flag is set during iteration
p+1 (i.e. the polls of iterations 1..p+1 already happened and saw it clear,
and every poll from iteration p+2 on sees it cleared), the loop makes at most
p+1 transmit calls in total before exiting — at most the single in-flight or
already-committed transmit of iteration p+1 happens after the flag is set,
and then control passes to shutdown. -/
theorem cancellation_latency (run txOk : Nat → Bool) (p fuel : Nat)
    (hset : ∀ j, p + 2 ≤ j → run j = false) (hfuel : p + 2 ≤ fuel) :
    txLoopFuelOut (txLoop run txOk fuel 1) = false ∧
    txLoopCount (txLoop run txOk fuel 1) ≤ p + 1 :=
  txLoop_stop_bound run txOk (p + 1) (fun j hj => hset j (by omega)) fuel 1
    (by omega) (by omega) (by omega)

theorem cancellation_latency_witness :
    txLoopFuelOut (txLoop (fun k => decide (k ≤ 2)) (fun _ => true) 4 1) = false ∧
    txLoopCount (txLoop (fun k => decide (k ≤ 2)) (fun _ => true) 4 1) ≤ 2 :=
  cancellation_latency (fun k => decide (k ≤ 2)) (fun _ => true) 1 4
    (fun j hj => by simp; omega) (by omega)

/-- Why `main` finished. -/
inductive Cause
  | openFail
  | cfgFail (channel : Nat) (e : CfgError)
  | syncFail
  | enableFail (channel : Nat)
  | txFail (k : Nat)
  | cancel
deriving DecidableEq

/-- Observable outcome of one run of a dual script's `main`: the value it
returns, why it finished, how many transmit calls happened, whether the
`finally` clause executed, and which teardown calls that clause attempted
(none when the device never opened, since `if dev:` guards the block). -/
structure MainResult where
  exitCode : Int
  cause : Cause
  txCalls : Nat
  finallyRan : Bool
  teardownActs : List TAct
deriving DecidableEq

/-- Environment of one run of a dual script: outcome of the device open, of
every configuration call on each channel, of `sync_config`, of the two
`enable_module` calls, the polled flag values, the per-iteration transmit
outcomes, and the teardown call outcomes. -/
structure World where
  openOk : Bool
  dev0 : DevOutcome
  dev1 : DevOutcome
  stages : List String
  syncOk : Bool
  enable0Ok : Bool
  enable1Ok : Bool
  run : Nat → Bool
  txOk : Nat → Bool
  teardown : TeardownOutcome

/-- `main()` of the dual scripts (lines 95-188): open, configure channel 0
then channel 1, sync_config, enable both modules, run the transmit loop; any
exception is caught and turns into return value 1, a clean loop exit falls
through to return value 0; the `finally` clause always executes, and its
teardown calls happen only when the device was opened.  `none` only when the
modelling fuel is insufficient. -/
def mainDual (w : World) (fuel : Nat) : Option MainResult :=
  if !w.openOk then some ⟨1, .openFail, 0, true, []⟩
  else
    match configure_channel w.dev0 w.stages with
    | .error e => some ⟨1, .cfgFail 0 e, 0, true, shutdown_dual w.teardown⟩
    | .ok _ =>
      match configure_channel w.dev1 w.stages with
      | .error e => some ⟨1, .cfgFail 1 e, 0, true, shutdown_dual w.teardown⟩
      | .ok _ =>
        if !w.syncOk then some ⟨1, .syncFail, 0, true, shutdown_dual w.teardown⟩
        else if !w.enable0Ok then some ⟨1, .enableFail 0, 0, true, shutdown_dual w.teardown⟩
        else if !w.enable1Ok then some ⟨1, .enableFail 1, 0, true, shutdown_dual w.teardown⟩
        else
          match txLoop w.run w.txOk fuel 1 with
          | .outOfFuel => none
          | .cancelled n => some ⟨0, .cancel, n, true, shutdown_dual w.teardown⟩
          | .txError k => some ⟨1, .txFail k, k, true, shutdown_dual w.teardown⟩

/-- DevOutcome in which every hardware call succeeds. -/
def allOkDev : DevOutcome := ⟨true, true, true, true, fun _ => true, true⟩

/-- Scenario of the C7 failure case: everything succeeds except that the
transmit call of iteration 2 raises a timeout error. -/
def txFail2World : World :=
  ⟨true, allOkDev, allOkDev, ["txvga1", "dsa1", "dsa2"], true, true, true,
   fun _ => true, fun k => decide (k ≠ 2), ⟨true, true, true⟩⟩

/-- C7: the run outcome is 1 exactly when a fatal error occurred (device
open, configuration, stream setup, channel enable or transmit failure) and 0
exactly when the run ended by clean cancellation; in every finished run the
`finally` shutdown clause executed before the outcome was returned.  In the
scenario where transmit fails on iteration 2 the loop makes exactly 2
transmit calls (none after iteration 2), the outcome is 1 and teardown still
attempted both disables and the close. -/
theorem main_exit_code_policy (w : World) (fuel : Nat) (r : MainResult)
    (h : mainDual w fuel = some r) :
    (r.exitCode = 0 ↔ r.cause = Cause.cancel) ∧
    (r.exitCode = 1 ↔ r.cause ≠ Cause.cancel) ∧
    r.finallyRan = true ∧
    mainDual txFail2World 10 =
      some ⟨1, Cause.txFail 2, 2, true,
        [TAct.disable 0, TAct.disable 1, TAct.closeDev]⟩ := by
  refine ⟨?_, ?_, ?_, by decide⟩ <;>
  · unfold mainDual at h
    split at h
    · cases h; simp
    · split at h
      · cases h; simp
      · split at h
        · cases h; simp
        · split at h
          · cases h; simp
          · split at h
            · cases h; simp
            · split at h
              · cases h; simp
              · split at h
                · cases h
                · cases h; simp
                · cases h; simp

theorem main_exit_code_policy_witness :
    ((1 : Int) = 0 ↔ Cause.txFail 2 = Cause.cancel) ∧
    ((1 : Int) = 1 ↔ Cause.txFail 2 ≠ Cause.cancel) ∧
    (true : Bool) = true ∧
    mainDual txFail2World 10 =
      some ⟨1, Cause.txFail 2, 2, true,
        [TAct.disable 0, TAct.disable 1, TAct.closeDev]⟩ :=
  main_exit_code_policy txFail2World 10
    ⟨1, Cause.txFail 2, 2, true, [TAct.disable 0, TAct.disable 1, TAct.closeDev]⟩
    (by decide)

/-- Buffer transmitted by iteration `i` (0-based) of the single-channel
script's loop (transmit_gps_l5.py lines 129-146): iteration 0 transmits the
buffer pre-generated before the loop; after the transmit of iteration `i` the
code draws `np.random.randint(0, 100)` (modelled by `d i`, a value in
[0, 99]) and replaces the cached buffer by a fresh one (`fresh i`) exactly
when the draw equals 0, so iteration `i+1` transmits that fresh buffer or
reuses the cached one. -/
def l5TxBuf (init : List Int) (fresh : Nat → List Int) (d : Nat → Nat) : Nat → List Int
  | 0 => init
  | i + 1 => if d i = 0 then fresh i else l5TxBuf init fresh d i

/-- Transfer buffer transmitted by iteration `i` of a dual script's loop
(lines 149-163): both channels' noise buffers are regenerated at the top of
every iteration (`gen0 i`, `gen1 i`) and interleaved. -/
def dualTxBuf (gen0 gen1 : Nat → List Int) (i : Nat) : List Int :=
  interleaveDual (gen0 i) (gen1 i)

/-- C9: in the dual-channel variants the transmitted transfer buffer of
iteration i is built from buffers freshly generated at iteration i (it depends
on nothing generated at any other iteration), while the single-channel
variant caches its buffer: iteration i+1 reuses the iteration-i buffer
whenever the draw after iteration i is nonzero, keeps it unchanged across any
run of nonzero draws, and replaces it by the fresh buffer exactly when the
draw equals 0 — one draw value out of the 100 equally likely values of
`np.random.randint(0, 100)`, i.e. probability exactly 1/100 per iteration. -/
theorem buffer_refresh_policy (init : List Int) (fresh : Nat → List Int) (d : Nat → Nat) :
    (∀ i, d i = 0 → l5TxBuf init fresh d (i + 1) = fresh i) ∧
    (∀ i, d i ≠ 0 → l5TxBuf init fresh d (i + 1) = l5TxBuf init fresh d i) ∧
    (∀ i j, i ≤ j → (∀ k, i ≤ k → k < j → d k ≠ 0) →
      l5TxBuf init fresh d j = l5TxBuf init fresh d i) ∧
    (∀ gen0 gen1 gen0' gen1' : Nat → List Int, ∀ i,
      gen0 i = gen0' i → gen1 i = gen1' i →
      dualTxBuf gen0 gen1 i = dualTxBuf gen0' gen1' i) ∧
    ((Finset.range 100).filter (fun v => v = 0)).card = 1 ∧
    (Finset.range 100).card = 100 := by
  refine ⟨fun i h => by simp [l5TxBuf, h], fun i h => by simp [l5TxBuf, h],
    ?_, ?_, by decide, by simp⟩
  · intro i j hij hno
    induction j with
    | zero =>
      have : i = 0 := by omega
      subst this
      rfl
    | succ j ihj =>
      rcases Nat.eq_or_lt_of_le hij with he | hlt
      · rw [he]
      · have hd : d j ≠ 0 := hno j (by omega) (by omega)
        have step : l5TxBuf init fresh d (j + 1) = l5TxBuf init fresh d j := by
          simp [l5TxBuf, hd]
        rw [step]
        exact ihj (by omega) (fun k hk1 hk2 => hno k hk1 (by omega))
  · intro gen0 gen1 gen0' gen1' i h0 h1
    simp [dualTxBuf, h0, h1]

theorem buffer_refresh_policy_witness :
    l5TxBuf [7] (fun i => [(i : Int)]) (fun _ => 3) 5 =
      l5TxBuf [7] (fun i => [(i : Int)]) (fun _ => 3) 0 :=
  (buffer_refresh_policy [7] (fun i => [(i : Int)]) (fun _ => 3)).2.2.1 0 5
    (by omega) (fun k h1 h2 => by decide)
